import Mathlib

set_option maxRecDepth 8000

/-!
Shallow embedding of src/link-emailer/index.js: a rate-limited batch email
dispatcher with retry/backoff and crash-safe result accumulation.

Timing is modelled by recording each wait's duration (in milliseconds)
instead of sleeping; randomness (jitter) and the SMTP transport are oracles
passed in as functions.
-/

namespace LinkEmailer

/-- Constant `inputFile` from the source. -/
def inputFile : String := "emails.csv"

/-- Constant `outputFile` from the source. -/
def outputFile : String := "emails_with_status.csv"

namespace RATE_LIMIT

/-- Google Workspace daily limit, `RATE_LIMIT.EMAILS_PER_DAY`. -/
def EMAILS_PER_DAY : Nat := 2000

/-- Conservative per-minute rate limit, `RATE_LIMIT.EMAILS_PER_MINUTE`; used as the batch size. -/
def EMAILS_PER_MINUTE : Nat := 20

/-- Base delay between emails in ms, `RATE_LIMIT.BASE_DELAY_MS`. -/
def BASE_DELAY_MS : Nat := 3000

/-- Base delay for retry in ms, `RATE_LIMIT.RETRY_BASE_DELAY_MS`. -/
def RETRY_BASE_DELAY_MS : Nat := 5000

/-- Maximum retry attempts, `RATE_LIMIT.MAX_RETRIES`. -/
def MAX_RETRIES : Nat := 3

end RATE_LIMIT

/-- Embeds the backoff factor computed inside the source's `delay` helper:
`attemptNumber > 0 ? Math.pow(2, attemptNumber - 1) : 1`. -/
def backoffFactor (attemptNumber : Nat) : Nat :=
  if attemptNumber > 0 then 2 ^ (attemptNumber - 1) else 1

/-- Embeds the `delay` helper: the number of milliseconds waited is
`ms * backoffFactor`.  The promise/sleep side is modelled by returning the
duration, which callers record in their traces. -/
def delay (ms : Nat) (attemptNumber : Nat) : Nat :=
  ms * backoffFactor attemptNumber

/-- Checks whether `pat` occurs as a contiguous sublist of `hay`. -/
def containsSeq : List Char → List Char → Bool
  | [], pat => pat.isEmpty
  | c :: rest, pat => List.isPrefixOf pat (c :: rest) || containsSeq rest pat

/-- JavaScript `hay.includes(pat)`: substring containment, case-sensitive,
with the empty pattern contained in everything. -/
def includes (hay pat : String) : Bool :=
  containsSeq hay.toList pat.toList

/-- The rate-limit classifier on a failure message, embedding the
`errorMessage.includes(...)` disjunction in `sendEmailWithRetry`:
quota wording, rate-limit wording, and SMTP codes 450/421/452. -/
def isRateLimitError (msg : String) : Bool :=
  includes msg "quota" || includes msg "rate limit" ||
  includes msg "450" || includes msg "421" || includes msg "452"

/-- Result of one `transporter.sendMail` call: success, or a rejection whose
`error.message` is absent (`none`) or a string (possibly empty). -/
inductive TransportResult where
  | success : TransportResult
  | failure : Option String → TransportResult
deriving Repr, DecidableEq

/-- Embeds `error.message || 'Unknown error'`: an absent or empty message is
replaced by the default. -/
def errorMessageOf : Option String → String
  | none => "Unknown error"
  | some m => if m = "" then "Unknown error" else m

/-- Whether a transport result is a failure. -/
def TransportResult.isFailure : TransportResult → Bool
  | .success => false
  | .failure _ => true

/-- Observable trace of one `sendEmailWithRetry` call: how many transport
calls were made, the backoff delays performed (in order, in ms), and the
returned status string. -/
structure SendTrace where
  calls : Nat
  delays : List Nat
  result : String
deriving Repr, DecidableEq

/-- Embeds the body of `sendEmailWithRetry`'s `for` loop.  `transport a` is
the outcome of `transporter.sendMail` on the a-th attempt (attempts are
numbered from 1).  `attempt` is the current value of the loop counter and
`remaining` the number of loop iterations the guard `attempt <= retries + 1`
still allows, so the loop invariant is `attempt + remaining = retries + 2`.

Per iteration: on success return `'SENT'`; on failure, if the message is
rate-limit classified, wait `delay(RETRY_BASE_DELAY_MS * 2, attempt)` and
continue; else if `attempt <= retries`, wait
`delay(RETRY_BASE_DELAY_MS, attempt)` and continue; else return
`'ERROR: ' + message.substring(0, 50) + '...'`.  When the guard fails the
function returns `'FAILED'`. -/
def sendAttempts (transport : Nat → TransportResult) (retries : Nat) :
    Nat → Nat → SendTrace
  | _attempt, 0 => { calls := 0, delays := [], result := "FAILED" }
  | attempt, remaining + 1 =>
    match transport attempt with
    | .success => { calls := 1, delays := [], result := "SENT" }
    | .failure msg =>
      let errorMessage := errorMessageOf msg
      if isRateLimitError errorMessage then
        let rest := sendAttempts transport retries (attempt + 1) remaining
        { calls := rest.calls + 1,
          delays := delay (RATE_LIMIT.RETRY_BASE_DELAY_MS * 2) attempt :: rest.delays,
          result := rest.result }
      else if attempt ≤ retries then
        let rest := sendAttempts transport retries (attempt + 1) remaining
        { calls := rest.calls + 1,
          delays := delay RATE_LIMIT.RETRY_BASE_DELAY_MS attempt :: rest.delays,
          result := rest.result }
      else
        { calls := 1, delays := [],
          result := "ERROR: " ++ errorMessage.take 50 ++ "..." }

/-- Embeds `sendEmailWithRetry(mailOptions, retries)`: run the attempt loop
starting at attempt 1 with the hard cap of `retries + 1` iterations. -/
def sendEmailWithRetry (transport : Nat → TransportResult) (retries : Nat) :
    SendTrace :=
  sendAttempts transport retries 1 (retries + 1)

/-- One row of the `results` array.  The csv parser produces objects with the
input columns `'Email Address'` and `'QV Link'`; the `'Status'` key does not
exist until `processBatch` assigns it, which `status : Option String` models
(`none` = key absent). -/
structure Row where
  emailAddress : String
  qvLink : String
  status : Option String
deriving Repr, DecidableEq

/-- A row as parsed from the input csv: no `'Status'` key. -/
def parsedRow (email link : String) : Row :=
  { emailAddress := email, qvLink := link, status := none }

/-- The status string `processBatch` computes for one row:
`await sendEmailWithRetry(mailOptions)` with the default retry budget.
The transport oracle is keyed by the recipient address. -/
def rowStatus (transport : String → Nat → TransportResult) (row : Row) : String :=
  (sendEmailWithRetry (transport row.emailAddress) RATE_LIMIT.MAX_RETRIES).result

/-- Processing one row inside `processBatch`'s loop: build the mail options
from the row and assign `row['Status'] = await sendEmailWithRetry(...)`. -/
def processRow (transport : String → Nat → TransportResult) (row : Row) : Row :=
  { row with status := some (rowStatus transport row) }

/-- Embeds the per-recipient dispatch loop over the whole `results` array
(the batch loops of the `end` callback and `processBatch` visit exactly the
rows of `results` in order; batch boundaries only insert pauses, handled
separately by `batchEvents`).

`fault idx` injects an unhandled fault (for example, `sendMail` rejecting
with a value whose `.message` access throws) while recipient `idx` is being
processed, before its status is assigned.  Returns the final state of the
shared `results` array, the log of `(index, status)` assignments in the
order they were made, and whether a fault escaped. -/
def dispatchGo (transport : String → Nat → TransportResult)
    (fault : Nat → Bool) : Nat → List Row → List Row × List (Nat × String) × Bool
  | _idx, [] => ([], [], false)
  | idx, r :: rs =>
    if fault idx then (r :: rs, [], true)
    else
      let s := rowStatus transport r
      let out := dispatchGo transport fault (idx + 1) rs
      ({ r with status := some s } :: out.1, (idx, s) :: out.2.1, out.2.2)

/-- What the `end` callback hands to a csv writer: which path it targets and
the rows written, plus whether the fault was reported and whether it was
re-raised out of the callback. -/
structure EndResult where
  path : String
  rows : List Row
  assignLog : List (Nat × String)
  faultReported : Bool
  reRaised : Bool
deriving Repr, DecidableEq

/-- Embeds the `end` callback's try/catch around the dispatch run: on normal
completion write `results` to `outputFile`; on an unhandled fault, write the
current `results` to `` `${outputFile}.partial` ``, log the error
(`faultReported`), and return normally (no re-raise). -/
def endCallback (transport : String → Nat → TransportResult)
    (fault : Nat → Bool) (results : List Row) : EndResult :=
  let out := dispatchGo transport fault 0 results
  if out.2.2 then
    { path := outputFile ++ ".partial", rows := out.1, assignLog := out.2.1,
      faultReported := true, reRaised := false }
  else
    { path := outputFile, rows := out.1, assignLog := out.2.1,
      faultReported := false, reRaised := false }

/-- Observable events of the `end` callback's batching loop: a batch being
handed to `processBatch`, or the 60-second inter-batch pause. -/
inductive BatchEvent (α : Type) where
  | batch : List α → BatchEvent α
  | pause : Nat → BatchEvent α
deriving Repr, DecidableEq

/-- Fuelled embedding of the batching loop
`for (let i = 0; i < results.length; i += BATCH_SIZE)`: each iteration takes
the slice `results.slice(i, i + B)` and, when `i + B < results.length`,
pauses 60000 ms before the next batch.  The fuel argument only bounds the
number of iterations; `batchEvents` supplies enough fuel for any positive
batch size. -/
def batchLoop (results : List α) (B : Nat) : Nat → Nat → List (BatchEvent α)
  | 0, _i => []
  | fuel + 1, i =>
    if i < results.length then
      BatchEvent.batch ((results.drop i).take B) ::
        ((if i + B < results.length then [BatchEvent.pause 60000] else []) ++
          batchLoop results B fuel (i + B))
    else []

/-- The batching loop of the `end` callback, started at `i = 0` with enough
fuel (`results.length + 1` iterations always suffice when `B > 0`). -/
def batchEvents (results : List α) (B : Nat) : List (BatchEvent α) :=
  batchLoop results B (results.length + 1) 0

/-- Reference chunking: consecutive slices of size `B` (last possibly
shorter).  Written against the spec's description of RateGovernor, to be
compared with the source-embedded `batchEvents`. -/
def chunksOf (B : Nat) : List α → List (List α)
  | [] => []
  | r :: rs => (r :: rs.take (B - 1)) :: chunksOf B (rs.drop (B - 1))
termination_by l => l.length
decreasing_by
  simp only [List.length_cons, List.length_drop]
  omega

/-- Reference pause placement: a 60000 ms pause between every pair of
consecutive batches and never after the last. -/
def withPauses : List (List α) → List (BatchEvent α)
  | [] => []
  | [b] => [BatchEvent.batch b]
  | b :: b2 :: bs =>
    BatchEvent.batch b :: BatchEvent.pause 60000 :: withPauses (b2 :: bs)

/-- A status string is terminal when it is one of the three values
`sendEmailWithRetry` can return. -/
def isTerminal (s : String) : Prop :=
  s = "SENT" ∨ s = "FAILED" ∨ ∃ m, s = "ERROR: " ++ m

/-! Lemmas about the retry loop. -/

/-- The attempt loop makes at most one transport call per permitted
iteration, whatever the transport does. -/
theorem sendAttempts_calls_le (t : Nat → TransportResult) (r : Nat) :
    ∀ remaining attempt, (sendAttempts t r attempt remaining).calls ≤ remaining := by
  intro remaining
  induction remaining with
  | zero => intro attempt; simp [sendAttempts]
  | succ n ih =>
    intro attempt
    simp only [sendAttempts]
    cases h : t attempt with
    | success => simp
    | failure msg =>
      by_cases hrl : isRateLimitError (errorMessageOf msg)
      · simpa [hrl] using Nat.succ_le_succ (ih (attempt + 1))
      · by_cases hle : attempt ≤ r
        · simpa [hrl, hle] using Nat.succ_le_succ (ih (attempt + 1))
        · simp [hrl, hle]

/-- If every attempt in range fails with a rate-limit-classified message,
the loop uses all permitted iterations and falls through to `'FAILED'`. -/
theorem sendAttempts_all_rate_limited (t : Nat → TransportResult) (r : Nat) :
    ∀ remaining attempt,
      (∀ a, attempt ≤ a → a < attempt + remaining →
        ∃ msg, t a = .failure msg ∧ isRateLimitError (errorMessageOf msg) = true) →
      (sendAttempts t r attempt remaining).calls = remaining ∧
      (sendAttempts t r attempt remaining).result = "FAILED" := by
  intro remaining
  induction remaining with
  | zero => intro attempt _; simp [sendAttempts]
  | succ n ih =>
    intro attempt hfail
    obtain ⟨msg, hmsg, hrl⟩ := hfail attempt (Nat.le_refl _) (by omega)
    have hrec := ih (attempt + 1) (fun a h1 h2 => hfail a (by omega) (by omega))
    simp only [sendAttempts, hmsg, hrl]
    simp [hrec.1, hrec.2]

/-- If the transport succeeds on attempt `j` and fails on every earlier
attempt in range, the loop returns `'SENT'` after exactly `j - attempt + 1`
calls, with one backoff delay per failed attempt and none after the
success. -/
theorem sendAttempts_success_at (t : Nat → TransportResult) (r j : Nat) :
    ∀ remaining attempt,
      attempt + remaining = r + 2 →
      attempt ≤ j → j < attempt + remaining →
      t j = .success →
      (∀ a, attempt ≤ a → a < j → ∃ msg, t a = .failure msg) →
      (sendAttempts t r attempt remaining).result = "SENT" ∧
      (sendAttempts t r attempt remaining).calls = j - attempt + 1 ∧
      (sendAttempts t r attempt remaining).delays.length = j - attempt := by
  intro remaining
  induction remaining with
  | zero => intro attempt hinv hle hlt _ _; omega
  | succ n ih =>
    intro attempt hinv hle hlt hsucc hfail
    rcases Nat.eq_or_lt_of_le hle with heq | hltj
    · subst heq
      simp [sendAttempts, hsucc]
    · obtain ⟨msg, hmsg⟩ := hfail attempt (Nat.le_refl _) hltj
      have hrec := ih (attempt + 1) (by omega) hltj (by omega) hsucc
        (fun a h1 h2 => hfail a (by omega) h2)
      have hler : attempt ≤ r := by omega
      by_cases hrl : isRateLimitError (errorMessageOf msg)
      · simp only [sendAttempts, hmsg, hrl]
        refine ⟨hrec.1, ?_, ?_⟩ <;> simp [hrec.2.1, hrec.2.2] <;> omega
      · simp only [sendAttempts, hmsg]
        rw [if_neg (by simp [hrl]), if_pos hler]
        refine ⟨hrec.1, ?_, ?_⟩ <;> simp [hrec.2.1, hrec.2.2] <;> omega

/-- If every attempt in range fails and the final permitted attempt's
message is not rate-limit classified, the loop ends in the truncated
`'ERROR: ...'` branch. -/
theorem sendAttempts_exhausted_generic (t : Nat → TransportResult) (r : Nat)
    (msg : Option String)
    (hlast : t (r + 1) = .failure msg)
    (hnrl : isRateLimitError (errorMessageOf msg) = false) :
    ∀ remaining attempt,
      1 ≤ remaining →
      attempt + remaining = r + 2 →
      (∀ a, attempt ≤ a → a ≤ r → ∃ m, t a = .failure m) →
      (sendAttempts t r attempt remaining).result =
        "ERROR: " ++ (errorMessageOf msg).take 50 ++ "..." := by
  intro remaining
  induction remaining with
  | zero => intro attempt h1 _ _; omega
  | succ n ih =>
    intro attempt _ hinv hfail
    rcases Nat.eq_zero_or_pos n with hn | hn
    · subst hn
      have hattempt : attempt = r + 1 := by omega
      subst hattempt
      simp [sendAttempts, hlast, hnrl]
    · have hler : attempt ≤ r := by omega
      obtain ⟨m, hm⟩ := hfail attempt (Nat.le_refl _) hler
      have hrec := ih (attempt + 1) hn (by omega)
        (fun a h1 h2 => hfail a (by omega) h2)
      by_cases hrl : isRateLimitError (errorMessageOf m)
      · simp only [sendAttempts, hm, hrl]
        simpa using hrec
      · simp only [sendAttempts, hm]
        rw [if_neg (by simp [hrl]), if_pos hler]
        simpa using hrec

/-- If every attempt in range fails with an absent-or-empty message, every
iteration takes the generic-retry path (with the standard backoff base) and
the loop ends with `'ERROR: Unknown error...'`. -/
theorem sendAttempts_unknown_error (t : Nat → TransportResult) (r : Nat)
    (hfail : ∀ a, 1 ≤ a → a ≤ r + 1 →
      t a = .failure none ∨ t a = .failure (some "")) :
    ∀ remaining attempt,
      1 ≤ remaining →
      attempt + remaining = r + 2 →
      1 ≤ attempt →
      (sendAttempts t r attempt remaining).result = "ERROR: Unknown error..." ∧
      (sendAttempts t r attempt remaining).delays =
        (List.range' attempt (remaining - 1)).map
          (fun a => delay RATE_LIMIT.RETRY_BASE_DELAY_MS a) := by
  intro remaining
  induction remaining with
  | zero => intro attempt h1 _ _; omega
  | succ n ih =>
    intro attempt _ hinv hpos
    have hmsg : errorMessageOf none = "Unknown error" ∧
        errorMessageOf (some "") = "Unknown error" := by
      constructor <;> rfl
    have hnorm : ∃ m, t attempt = .failure m ∧ errorMessageOf m = "Unknown error" := by
      rcases hfail attempt hpos (by omega) with h | h
      · exact ⟨none, h, hmsg.1⟩
      · exact ⟨some "", h, hmsg.2⟩
    obtain ⟨m, hm, hunk⟩ := hnorm
    have hnrl : isRateLimitError (errorMessageOf m) = false := by
      rw [hunk]; decide
    rcases Nat.eq_zero_or_pos n with hn | hn
    · subst hn
      have hattempt : attempt = r + 1 := by omega
      simp only [sendAttempts, hm]
      rw [if_neg (by simp [hnrl]), if_neg (by omega)]
      constructor
      · simp only [hunk]; rfl
      · simp
    · have hler : attempt ≤ r := by omega
      have hrec := ih (attempt + 1) hn (by omega) (by omega)
      simp only [sendAttempts, hm]
      rw [if_neg (by simp [hnrl]), if_pos hler]
      refine ⟨by simpa using hrec.1, ?_⟩
      have hn1 : n - 1 + 1 = n := by omega
      simp only [hrec.2, Nat.add_sub_cancel]
      rw [← hn1, List.range'_succ]
      simp

/-- If every attempt in range fails and the final permitted attempt's
message IS rate-limit classified, the loop uses all permitted iterations,
ends in `'FAILED'`, and its very last recorded wait is the doubled
rate-limit backoff scaled by the final attempt number. -/
theorem sendAttempts_exhausted_rate_limited (t : Nat → TransportResult) (r : Nat)
    (msg : Option String)
    (hlast : t (r + 1) = .failure msg)
    (hrl : isRateLimitError (errorMessageOf msg) = true) :
    ∀ remaining attempt,
      1 ≤ remaining →
      attempt + remaining = r + 2 →
      (∀ a, attempt ≤ a → a ≤ r + 1 → ∃ m, t a = .failure m) →
      (sendAttempts t r attempt remaining).result = "FAILED" ∧
      (sendAttempts t r attempt remaining).calls = remaining ∧
      ∃ ds, (sendAttempts t r attempt remaining).delays =
        ds ++ [delay (RATE_LIMIT.RETRY_BASE_DELAY_MS * 2) (r + 1)] := by
  intro remaining
  induction remaining with
  | zero => intro attempt h1 _ _; omega
  | succ n ih =>
    intro attempt _ hinv hfail
    rcases Nat.eq_zero_or_pos n with hn | hn
    · subst hn
      have hattempt : attempt = r + 1 := by omega
      subst hattempt
      simp only [sendAttempts, hlast, hrl]
      refine ⟨by simp [sendAttempts], by simp [sendAttempts], [], ?_⟩
      simp [sendAttempts]
    · have hler : attempt ≤ r := by omega
      obtain ⟨m, hm⟩ := hfail attempt (Nat.le_refl _) (by omega)
      have hrec := ih (attempt + 1) hn (by omega)
        (fun a h1 h2 => hfail a (by omega) h2)
      obtain ⟨hres, hcalls, ds, hds⟩ := hrec
      by_cases hrlm : isRateLimitError (errorMessageOf m)
      · simp only [sendAttempts, hm, hrlm]
        refine ⟨by simpa using hres, by simpa using hcalls, ?_⟩
        exact ⟨delay (RATE_LIMIT.RETRY_BASE_DELAY_MS * 2) attempt :: ds, by simp [hds]⟩
      · simp only [sendAttempts, hm]
        rw [if_neg (by simp [hrlm]), if_pos hler]
        refine ⟨by simpa using hres, by simpa using hcalls, ?_⟩
        exact ⟨delay RATE_LIMIT.RETRY_BASE_DELAY_MS attempt :: ds, by simp [hds]⟩

/-- Whatever the transport does, the attempt loop returns one of the three
terminal status strings. -/
theorem sendAttempts_result_terminal (t : Nat → TransportResult) (r : Nat) :
    ∀ remaining attempt, isTerminal (sendAttempts t r attempt remaining).result := by
  intro remaining
  induction remaining with
  | zero => intro attempt; exact Or.inr (Or.inl rfl)
  | succ n ih =>
    intro attempt
    simp only [sendAttempts]
    cases h : t attempt with
    | success => exact Or.inl rfl
    | failure msg =>
      by_cases hrl : isRateLimitError (errorMessageOf msg)
      · simpa [hrl] using ih (attempt + 1)
      · by_cases hle : attempt ≤ r
        · simpa [hrl, hle] using ih (attempt + 1)
        · simp only [hrl, Bool.false_eq_true, if_false, hle]
          refine Or.inr (Or.inr ⟨(errorMessageOf msg).take 50 ++ "...", ?_⟩)
          simp [String.append_assoc]

/-- A terminal status is never the string `'Pending'` (no such value exists
anywhere in the program). -/
theorem isTerminal_ne_pending (s : String) (h : isTerminal s) : s ≠ "Pending" := by
  rcases h with h | h | ⟨m, h⟩ <;> subst h
  · decide
  · decide
  · intro h2
    have h3 := congrArg String.data h2
    simp [String.data_append] at h3

/-! Lemmas about the dispatch loop. -/

/-- With no fault, the dispatch loop maps `processRow` over the rows and
logs exactly one assignment per row, at consecutive indices, in order. -/
theorem dispatchGo_no_fault (t : String → Nat → TransportResult) :
    ∀ (rows : List Row) (idx : Nat),
      dispatchGo t (fun _ => false) idx rows =
        (rows.map (processRow t),
         (List.range' idx rows.length).zip (rows.map (rowStatus t)),
         false) := by
  intro rows
  induction rows with
  | nil => intro idx; simp [dispatchGo]
  | cons r rs ih =>
    intro idx
    simp only [dispatchGo]
    simp [ih (idx + 1), List.range'_succ, processRow]

/-- If the first fault fires while recipient `k` is being processed, the
dispatch loop halts there: rows before `k` are processed, rows from `k` on
are untouched, the log covers exactly the processed rows, and the fault
escapes. -/
theorem dispatchGo_fault_at (t : String → Nat → TransportResult)
    (fault : Nat → Bool) (k : Nat) (hk : fault k = true) :
    ∀ (rows : List Row) (idx : Nat),
      idx ≤ k → k - idx < rows.length →
      (∀ j, idx ≤ j → j < k → fault j = false) →
      dispatchGo t fault idx rows =
        ((rows.take (k - idx)).map (processRow t) ++ rows.drop (k - idx),
         (List.range' idx (k - idx)).zip
           ((rows.take (k - idx)).map (rowStatus t)),
         true) := by
  intro rows
  induction rows with
  | nil => intro idx _ h2 _; simp at h2
  | cons r rs ih =>
    intro idx hle hlen hbefore
    rcases Nat.eq_or_lt_of_le hle with heq | hlt
    · subst heq
      simp [dispatchGo, hk]
    · have hfidx : fault idx = false := hbefore idx (Nat.le_refl _) hlt
      have hrec := ih (idx + 1) (by omega) (by simp at hlen; omega)
        (fun j h1 h2 => hbefore j (by omega) h2)
      simp only [dispatchGo, hfidx, Bool.false_eq_true, if_false]
      have hsub : k - idx = (k - (idx + 1)) + 1 := by omega
      simp only [hrec, hsub, List.take_succ_cons, List.drop_succ_cons,
        List.map_cons, List.range'_succ, List.zip_cons_cons, List.cons_append]
      simp [processRow]

/-- The dispatch loop never invents a status: every output row either still
has its input status (`none` for parsed rows) or carries a terminal status
just assigned to it. -/
theorem dispatchGo_rows_status (t : String → Nat → TransportResult)
    (fault : Nat → Bool) :
    ∀ (rows : List Row) (idx : Nat),
      (∀ r ∈ rows, r.status = none) →
      ∀ r ∈ (dispatchGo t fault idx rows).1,
        r.status = none ∨ ∃ s, r.status = some s ∧ isTerminal s := by
  intro rows
  induction rows with
  | nil => intro idx _ r hr; simp [dispatchGo] at hr
  | cons r0 rs ih =>
    intro idx hnone r hr
    by_cases hf : fault idx
    · simp only [dispatchGo, hf, if_true] at hr
      exact Or.inl (hnone r hr)
    · simp only [dispatchGo, hf, Bool.false_eq_true, if_false,
        List.mem_cons] at hr
      rcases hr with hr | hr
      · subst hr
        exact Or.inr ⟨rowStatus t r0, rfl, sendAttempts_result_terminal _ _ _ _⟩
      · exact ih (idx + 1) (fun x hx => hnone x (List.mem_cons_of_mem _ hx)) r hr

/-! Lemmas about the batching loop. -/

/-- Chunking produces no batches exactly on the empty list. -/
theorem chunksOf_eq_nil_iff (B : Nat) (l : List α) :
    chunksOf B l = [] ↔ l = [] := by
  cases l with
  | nil => simp [chunksOf]
  | cons r rs => simp [chunksOf]

/-- Concatenating the chunks gives back the original list. -/
theorem chunksOf_join (B : Nat) (hB : 0 < B) :
    ∀ l : List α, (chunksOf B l).join = l
  | [] => by simp [chunksOf]
  | r :: rs => by
    have ih := chunksOf_join B hB (rs.drop (B - 1))
    simp only [chunksOf, List.join_cons, ih, List.cons_append]
    rw [List.take_append_drop]
termination_by l => l.length
decreasing_by simp only [List.length_cons, List.length_drop]; omega

/-- No chunk exceeds the batch size. -/
theorem chunksOf_length_le (B : Nat) (hB : 0 < B) :
    ∀ l : List α, ∀ b ∈ chunksOf B l, b.length ≤ B
  | [] => by simp [chunksOf]
  | r :: rs => by
    intro b hb
    simp only [chunksOf, List.mem_cons] at hb
    rcases hb with hb | hb
    · subst hb
      simp only [List.length_cons, List.length_take]
      omega
    · exact chunksOf_length_le B hB (rs.drop (B - 1)) b hb
termination_by l => l.length
decreasing_by simp only [List.length_cons, List.length_drop]; omega

/-- Every chunk except possibly the last has length exactly the batch
size. -/
theorem chunksOf_dropLast_length (B : Nat) (hB : 0 < B) :
    ∀ l : List α, ∀ b ∈ (chunksOf B l).dropLast, b.length = B
  | [] => by simp [chunksOf]
  | r :: rs => by
    intro b hb
    simp only [chunksOf] at hb
    cases hcs : chunksOf B (rs.drop (B - 1)) with
    | nil => simp [hcs] at hb
    | cons c2 cs2 =>
      rw [hcs, List.dropLast_cons₂, List.mem_cons] at hb
      rcases hb with hb | hb
      · subst hb
        have hne : rs.drop (B - 1) ≠ [] := by
          intro hnil
          rw [hnil] at hcs
          simp [chunksOf] at hcs
        have hlen : B - 1 < rs.length := by
          by_contra hcon
          exact hne (List.drop_eq_nil_of_le (by omega))
        simp only [List.length_cons, List.length_take]
        omega
      · exact chunksOf_dropLast_length B hB (rs.drop (B - 1)) b (hcs ▸ hb)
termination_by l => l.length
decreasing_by simp only [List.length_cons, List.length_drop]; omega

/-- With enough fuel, the batching loop started at index `i` produces the
chunks of the not-yet-processed suffix, with one 60-second pause between
every pair of consecutive batches and none after the last. -/
theorem batchLoop_eq_withPauses (B : Nat) (hB : 0 < B) (results : List α) :
    ∀ fuel i, results.length - i < fuel →
      batchLoop results B fuel i = withPauses (chunksOf B (results.drop i)) := by
  intro fuel
  induction fuel with
  | zero => intro i h; omega
  | succ n ih =>
    intro i h
    by_cases hi : i < results.length
    · have hne : results.drop i ≠ [] := by
        intro hnil
        have := List.drop_eq_nil_iff_le.mp hnil
        omega
      obtain ⟨r, rs, hdrop⟩ := List.exists_cons_of_ne_nil hne
      have hrec := ih (i + B) (by omega)
      have hdd : results.drop (i + B) = rs.drop (B - 1) := by
        have h1 : results.drop (i + B) = (results.drop i).drop B := by
          rw [List.drop_drop]
        rw [h1, hdrop]
        cases B with
        | zero => omega
        | succ B2 => simp
      have htake : (results.drop i).take B = r :: rs.take (B - 1) := by
        rw [hdrop]
        cases B with
        | zero => omega
        | succ B2 => simp
      have hcond : (i + B < results.length) ↔ rs.drop (B - 1) ≠ [] := by
        rw [← hdd]
        constructor
        · intro hlt hnil
          have := List.drop_eq_nil_iff_le.mp hnil
          omega
        · intro hne2
          by_contra hcon
          exact hne2 (List.drop_eq_nil_of_le (by omega))
      simp only [batchLoop, if_pos hi, hrec, hdd]
      rw [hdrop]
      simp only [chunksOf]
      cases hcs : chunksOf B (rs.drop (B - 1)) with
      | nil =>
        have hnil : rs.drop (B - 1) = [] := (chunksOf_eq_nil_iff B _).mp hcs
        have : ¬ (i + B < results.length) := by
          rw [hcond]
          simpa using hnil
        simp only [if_neg this, withPauses]
        rw [← hdrop, htake]
        simp [hdrop, withPauses]
      | cons c2 cs2 =>
        have hne2 : rs.drop (B - 1) ≠ [] := by
          intro hnil
          rw [hnil] at hcs
          simp [chunksOf] at hcs
        have hlt : i + B < results.length := hcond.mpr hne2
        simp only [if_pos hlt, withPauses]
        rw [← hdrop, htake]
        simp [hdrop, withPauses]
    · have hnil : results.drop i = [] := List.drop_eq_nil_of_le (by omega)
      simp [batchLoop, hi, hnil, chunksOf, withPauses]

/-- Mapping the optional second component over a zip of equal-length lists
recovers the second list wrapped in `some`. -/
theorem map_some_snd_zip :
    ∀ (l1 : List Nat) (l2 : List String), l1.length = l2.length →
      (l1.zip l2).map (fun p => some p.2) = l2.map some
  | [], [], _ => rfl
  | [], _ :: _, h => by simp at h
  | _ :: _, [], h => by simp at h
  | a :: as, b :: bs, h => by
    simp only [List.zip_cons_cons, List.map_cons]
    rw [map_some_snd_zip as bs (by simpa using h)]

/-! The claims. -/

/-- C1: for every non-negative `maxRetries` and every transport behavior,
`sendEmailWithRetry` makes at most `maxRetries + 1` transport calls; under
an always-rate-limited transport it makes exactly `maxRetries + 1` calls and
then returns `'FAILED'` — the rate-limit backoff path does not retry
indefinitely beyond `maxRetries`. -/
theorem retry_attempt_cap (retries : Nat) (transport : Nat → TransportResult)
    (hrl : ∀ a, ∃ msg, transport a = TransportResult.failure msg ∧
      isRateLimitError (errorMessageOf msg) = true) :
    (∀ t : Nat → TransportResult,
      (sendEmailWithRetry t retries).calls ≤ retries + 1) ∧
    (sendEmailWithRetry transport retries).calls = retries + 1 ∧
    (sendEmailWithRetry transport retries).result = "FAILED" := by
  have h := sendAttempts_all_rate_limited transport retries (retries + 1) 1
    (fun a _ _ => hrl a)
  exact ⟨fun t => sendAttempts_calls_le t retries (retries + 1) 1, h.1, h.2⟩

/-- Witness for C1 at `maxRetries = 3` and a transport that always fails
with a quota message. -/
theorem retry_attempt_cap_witness :
    (∀ t : Nat → TransportResult, (sendEmailWithRetry t 3).calls ≤ 3 + 1) ∧
    (sendEmailWithRetry (fun _ => TransportResult.failure (some "quota exceeded")) 3).calls = 3 + 1 ∧
    (sendEmailWithRetry (fun _ => TransportResult.failure (some "quota exceeded")) 3).result = "FAILED" :=
  retry_attempt_cap 3 (fun _ => TransportResult.failure (some "quota exceeded"))
    (fun _ => ⟨some "quota exceeded", rfl, by decide⟩)

/-- C4: if the transport fails on the first `j - 1` attempts and succeeds on
attempt `j ≤ maxRetries + 1`, `sendEmailWithRetry` returns `'SENT'`, makes
exactly `j` transport calls, and performs no delay after the successful call
(one backoff per failed attempt only). -/
theorem retry_success_trace (retries j : Nat)
    (transport : Nat → TransportResult)
    (h1 : 1 ≤ j) (h2 : j ≤ retries + 1)
    (hsucc : transport j = TransportResult.success)
    (hfail : ∀ a, 1 ≤ a → a < j → ∃ msg, transport a = TransportResult.failure msg) :
    (sendEmailWithRetry transport retries).result = "SENT" ∧
    (sendEmailWithRetry transport retries).calls = j ∧
    (sendEmailWithRetry transport retries).delays.length = j - 1 := by
  have h := sendAttempts_success_at transport retries j (retries + 1) 1
    (by omega) h1 (by omega) hsucc hfail
  have hc := h.2.1
  have hd := h.2.2
  unfold sendEmailWithRetry
  exact ⟨h.1, by omega, by omega⟩

/-- Witness for C4: a transport that fails twice then succeeds, with
`maxRetries = 3 ≥ 2`, yields `'SENT'` with exactly 3 calls and 2 delays. -/
theorem retry_success_trace_witness :
    (sendEmailWithRetry (fun a => if a ≤ 2 then TransportResult.failure (some "x") else TransportResult.success) 3).result = "SENT" ∧
    (sendEmailWithRetry (fun a => if a ≤ 2 then TransportResult.failure (some "x") else TransportResult.success) 3).calls = 3 ∧
    (sendEmailWithRetry (fun a => if a ≤ 2 then TransportResult.failure (some "x") else TransportResult.success) 3).delays.length = 3 - 1 :=
  retry_success_trace 3 3
    (fun a => if a ≤ 2 then TransportResult.failure (some "x") else TransportResult.success)
    (by decide) (by decide) (by decide)
    (fun a ha1 ha2 => ⟨some "x", by interval_cases a <;> rfl⟩)

/-- C5: the `delay` helper waits `baseMs * 2 ^ (attemptNumber - 1)` ms for a
positive attempt number and `baseMs` ms at attempt number 0; hence for every
attempt number `n ≥ 1` the rate-limit backoff (base
`RETRY_BASE_DELAY_MS * 2`) is strictly greater than the generic backoff
(base `RETRY_BASE_DELAY_MS`) at the same attempt number. -/
theorem backoff_formula :
    (∀ ms n, 0 < n → delay ms n = ms * 2 ^ (n - 1)) ∧
    (∀ ms, delay ms 0 = ms) ∧
    (∀ n, 1 ≤ n →
      delay (RATE_LIMIT.RETRY_BASE_DELAY_MS * 2) n >
        delay RATE_LIMIT.RETRY_BASE_DELAY_MS n) := by
  refine ⟨fun ms n hn => by simp [delay, backoffFactor, hn],
    fun ms => by simp [delay, backoffFactor], fun n hn => ?_⟩
  have hp : 0 < 2 ^ (n - 1) := Nat.pos_pow_of_pos _ (by norm_num)
  simp only [delay, backoffFactor, RATE_LIMIT.RETRY_BASE_DELAY_MS, if_pos (by omega : n > 0)]
  calc 5000 * 2 ^ (n - 1) < 10000 * 2 ^ (n - 1) := by
        exact Nat.mul_lt_mul_of_lt_of_le (by norm_num) (Nat.le_refl _) hp
    _ = 5000 * 2 * 2 ^ (n - 1) := by ring

/-- Witness for C5 at `attemptNumber = 3` (and 0). -/
theorem backoff_formula_witness :
    delay 7 3 = 7 * 2 ^ 2 ∧ delay 7 0 = 7 ∧
    delay (RATE_LIMIT.RETRY_BASE_DELAY_MS * 2) 3 >
      delay RATE_LIMIT.RETRY_BASE_DELAY_MS 3 :=
  ⟨backoff_formula.1 7 3 (by decide), backoff_formula.2.1 7,
    backoff_formula.2.2 3 (by decide)⟩

/-- C6: when the retry budget is exhausted and the final attempt's failure
message is not rate-limit classified, `sendEmailWithRetry` returns
`'ERROR: '` followed by the first 50 characters of the message and an
ellipsis. -/
theorem error_truncation (retries : Nat) (transport : Nat → TransportResult)
    (msg : Option String)
    (hfail : ∀ a, 1 ≤ a → a ≤ retries → ∃ m, transport a = TransportResult.failure m)
    (hlast : transport (retries + 1) = TransportResult.failure msg)
    (hnrl : isRateLimitError (errorMessageOf msg) = false) :
    (sendEmailWithRetry transport retries).result =
      "ERROR: " ++ (errorMessageOf msg).take 50 ++ "..." :=
  sendAttempts_exhausted_generic transport retries msg hlast hnrl
    (retries + 1) 1 (by omega) (by omega) hfail

/-- Witness for C6: an always-failing transport with a generic message and
`maxRetries = 1`. -/
theorem error_truncation_witness :
    (sendEmailWithRetry (fun _ => TransportResult.failure (some "boom")) 1).result =
      "ERROR: " ++ (errorMessageOf (some "boom")).take 50 ++ "..." :=
  error_truncation 1 (fun _ => TransportResult.failure (some "boom")) (some "boom")
    (fun _ _ _ => ⟨some "boom", rfl⟩) rfl (by decide)

/-- C9: when the final permitted attempt (`attempt = maxRetries + 1`) fails
with a rate-limit-classified message, the loop still performs the full
doubled backoff (base `RETRY_BASE_DELAY_MS * 2` scaled by the final attempt
number) as its last wait before returning `'FAILED'`, even though no further
transport attempt follows it. -/
theorem final_rate_limit_delay (retries : Nat)
    (transport : Nat → TransportResult) (msg : Option String)
    (hfail : ∀ a, 1 ≤ a → a ≤ retries + 1 → ∃ m, transport a = TransportResult.failure m)
    (hlast : transport (retries + 1) = TransportResult.failure msg)
    (hrl : isRateLimitError (errorMessageOf msg) = true) :
    (sendEmailWithRetry transport retries).result = "FAILED" ∧
    (sendEmailWithRetry transport retries).calls = retries + 1 ∧
    ∃ ds, (sendEmailWithRetry transport retries).delays =
      ds ++ [delay (RATE_LIMIT.RETRY_BASE_DELAY_MS * 2) (retries + 1)] :=
  sendAttempts_exhausted_rate_limited transport retries msg hlast hrl
    (retries + 1) 1 (by omega) (by omega) hfail

/-- Witness for C9: a transport that always fails with an SMTP 421 message,
at `maxRetries = 2`. -/
theorem final_rate_limit_delay_witness :
    (sendEmailWithRetry (fun _ => TransportResult.failure (some "421 too many")) 2).result = "FAILED" ∧
    (sendEmailWithRetry (fun _ => TransportResult.failure (some "421 too many")) 2).calls = 2 + 1 ∧
    ∃ ds, (sendEmailWithRetry (fun _ => TransportResult.failure (some "421 too many")) 2).delays =
      ds ++ [delay (RATE_LIMIT.RETRY_BASE_DELAY_MS * 2) (2 + 1)] :=
  final_rate_limit_delay 2 (fun _ => TransportResult.failure (some "421 too many"))
    (some "421 too many") (fun _ _ _ => ⟨some "421 too many", rfl⟩) rfl (by decide)

/-- C10: a transport failure with an absent or empty message is normalized
to `'Unknown error'`, which matches no rate-limit indicator, so every
iteration takes the generic-retry path (standard backoff base) and
exhaustion yields `'ERROR: Unknown error...'`. -/
theorem unknown_error_default (retries : Nat)
    (transport : Nat → TransportResult)
    (hfail : ∀ a, 1 ≤ a → a ≤ retries + 1 →
      transport a = TransportResult.failure none ∨
      transport a = TransportResult.failure (some "")) :
    isRateLimitError "Unknown error" = false ∧
    (sendEmailWithRetry transport retries).result = "ERROR: Unknown error..." ∧
    (sendEmailWithRetry transport retries).delays =
      (List.range' 1 retries).map
        (fun a => delay RATE_LIMIT.RETRY_BASE_DELAY_MS a) := by
  have h := sendAttempts_unknown_error transport retries hfail (retries + 1) 1
    (by omega) (by omega) (by omega)
  exact ⟨by decide, h.1, by simpa using h.2⟩

/-- Witness for C10: a transport whose rejections carry no message, at
`maxRetries = 1`. -/
theorem unknown_error_default_witness :
    isRateLimitError "Unknown error" = false ∧
    (sendEmailWithRetry (fun _ => TransportResult.failure none) 1).result = "ERROR: Unknown error..." ∧
    (sendEmailWithRetry (fun _ => TransportResult.failure none) 1).delays =
      (List.range' 1 1).map (fun a => delay RATE_LIMIT.RETRY_BASE_DELAY_MS a) :=
  unknown_error_default 1 (fun _ => TransportResult.failure none)
    (fun _ _ _ => Or.inl rfl)

/-- C7: for every recipient list and positive batch size, the batching loop
is exactly the chunking of the list into consecutive slices of size
`sendsPerMinute` (last possibly smaller, none larger, concatenating back to
the input, in order) with the 60-second pause between every pair of
consecutive batches and never after the last. -/
theorem batching_partition (α : Type) (results : List α) (B : Nat)
    (hB : 0 < B) :
    batchEvents results B = withPauses (chunksOf B results) ∧
    (chunksOf B results).join = results ∧
    (∀ b ∈ chunksOf B results, b.length ≤ B) ∧
    (∀ b ∈ (chunksOf B results).dropLast, b.length = B) := by
  refine ⟨?_, chunksOf_join B hB results, chunksOf_length_le B hB results,
    chunksOf_dropLast_length B hB results⟩
  have h := batchLoop_eq_withPauses B hB results (results.length + 1) 0
    (by omega)
  simpa [batchEvents] using h

/-- Witness for C7 on a five-element list with batch size 2. -/
theorem batching_partition_witness :
    batchEvents [1, 2, 3, 4, 5] 2 = withPauses (chunksOf 2 [1, 2, 3, 4, 5]) ∧
    (chunksOf 2 [1, 2, 3, 4, 5]).join = [1, 2, 3, 4, 5] ∧
    (∀ b ∈ chunksOf 2 [1, 2, 3, 4, 5], b.length ≤ 2) ∧
    (∀ b ∈ (chunksOf 2 [1, 2, 3, 4, 5]).dropLast, b.length = 2) :=
  batching_partition Nat [1, 2, 3, 4, 5] 2 (by decide)

/-- C3: on normal completion the sequence handed to the output sink has the
same length and row order as the input (each output row is its input row
processed in place), every row's final status is terminal (`'SENT'`,
`'ERROR: ...'` or `'FAILED'`, never `'Pending'`), and the dispatch loop
assigns each row's status exactly once — one log entry per index, in input
order — with the final status equal to that single assignment. -/
theorem success_output_invariants (transport : String → Nat → TransportResult)
    (rows : List Row) :
    (endCallback transport (fun _ => false) rows).path = outputFile ∧
    (endCallback transport (fun _ => false) rows).rows =
      rows.map (processRow transport) ∧
    (endCallback transport (fun _ => false) rows).rows.length = rows.length ∧
    (∀ r ∈ (endCallback transport (fun _ => false) rows).rows,
      ∃ s, r.status = some s ∧ isTerminal s ∧ s ≠ "Pending") ∧
    (endCallback transport (fun _ => false) rows).assignLog.map Prod.fst =
      List.range rows.length ∧
    (endCallback transport (fun _ => false) rows).rows.map Row.status =
      (endCallback transport (fun _ => false) rows).assignLog.map
        (fun p => some p.2) := by
  have hd := dispatchGo_no_fault transport rows 0
  have hzl : (List.range' 0 rows.length).length = rows.length := by
    simp [List.length_range']
  have hsl : (rows.map (rowStatus transport)).length = rows.length := by
    simp
  have hrows : (endCallback transport (fun _ => false) rows).rows =
      rows.map (processRow transport) := by simp [endCallback, hd]
  have hlog : (endCallback transport (fun _ => false) rows).assignLog =
      (List.range' 0 rows.length).zip (rows.map (rowStatus transport)) := by
    simp [endCallback, hd]
  refine ⟨by simp [endCallback, hd], hrows, by simp [hrows], ?_, ?_, ?_⟩
  · intro r hr
    rw [hrows] at hr
    simp only [List.mem_map] at hr
    obtain ⟨r0, _, hr0⟩ := hr
    subst hr0
    have hterm : isTerminal (rowStatus transport r0) :=
      sendAttempts_result_terminal _ _ _ _
    exact ⟨rowStatus transport r0, rfl, hterm, isTerminal_ne_pending _ hterm⟩
  · rw [hlog, List.map_fst_zip _ _ (by omega)]
    exact (List.range_eq_range' rows.length).symm
  · rw [hrows, hlog, map_some_snd_zip _ _ (by omega)]
    simp [List.map_map, processRow, Function.comp]

/-- Witness for C3 on a two-row input with an always-succeeding
transport. -/
theorem success_output_invariants_witness :
    (endCallback (fun _ _ => TransportResult.success) (fun _ => false)
      [parsedRow "a" "l1", parsedRow "b" "l2"]).path = outputFile ∧
    (endCallback (fun _ _ => TransportResult.success) (fun _ => false)
      [parsedRow "a" "l1", parsedRow "b" "l2"]).rows =
      [parsedRow "a" "l1", parsedRow "b" "l2"].map
        (processRow (fun _ _ => TransportResult.success)) ∧
    (endCallback (fun _ _ => TransportResult.success) (fun _ => false)
      [parsedRow "a" "l1", parsedRow "b" "l2"]).rows.length =
      [parsedRow "a" "l1", parsedRow "b" "l2"].length ∧
    (∀ r ∈ (endCallback (fun _ _ => TransportResult.success) (fun _ => false)
      [parsedRow "a" "l1", parsedRow "b" "l2"]).rows,
      ∃ s, r.status = some s ∧ isTerminal s ∧ s ≠ "Pending") ∧
    (endCallback (fun _ _ => TransportResult.success) (fun _ => false)
      [parsedRow "a" "l1", parsedRow "b" "l2"]).assignLog.map Prod.fst =
      List.range [parsedRow "a" "l1", parsedRow "b" "l2"].length ∧
    (endCallback (fun _ _ => TransportResult.success) (fun _ => false)
      [parsedRow "a" "l1", parsedRow "b" "l2"]).rows.map Row.status =
      (endCallback (fun _ _ => TransportResult.success) (fun _ => false)
        [parsedRow "a" "l1", parsedRow "b" "l2"]).assignLog.map
          (fun p => some p.2) :=
  success_output_invariants (fun _ _ => TransportResult.success)
    [parsedRow "a" "l1", parsedRow "b" "l2"]

/-- C2: if the first unhandled fault fires while recipient `k < n` is being
processed, iteration halts there and the catch handler writes the full
`n`-row sequence as it exists at that moment to the distinguishably-named
partial location: the first `k` rows processed (terminal statuses), the
rest untouched (last-known status); the fault is reported and not
re-raised. -/
theorem crash_save_on_fault (transport : String → Nat → TransportResult)
    (fault : Nat → Bool) (rows : List Row) (k : Nat)
    (hk : fault k = true)
    (hbefore : ∀ j, j < k → fault j = false)
    (hkn : k < rows.length) :
    (endCallback transport fault rows).path = outputFile ++ ".partial" ∧
    (endCallback transport fault rows).path ≠ outputFile ∧
    (endCallback transport fault rows).rows.length = rows.length ∧
    (endCallback transport fault rows).rows =
      (rows.take k).map (processRow transport) ++ rows.drop k ∧
    (∀ r ∈ (rows.take k).map (processRow transport),
      ∃ s, r.status = some s ∧ isTerminal s) ∧
    (endCallback transport fault rows).faultReported = true ∧
    (endCallback transport fault rows).reRaised = false := by
  have hd := dispatchGo_fault_at transport fault k hk rows 0 (by omega)
    (by simpa using hkn) (fun j _ h2 => hbefore j h2)
  simp only [Nat.sub_zero] at hd
  refine ⟨by simp [endCallback, hd], by simp [endCallback, hd, outputFile], ?_,
    by simp [endCallback, hd], ?_, by simp [endCallback, hd],
    by simp [endCallback, hd]⟩
  · simp only [endCallback, hd]
    simp [List.length_append, List.length_take, List.length_drop]
    omega
  · intro r hr
    simp only [List.mem_map] at hr
    obtain ⟨r0, _, hr0⟩ := hr
    subst hr0
    exact ⟨rowStatus transport r0, rfl, sendAttempts_result_terminal _ _ _ _⟩

/-- Witness for C2: three parsed rows, fault firing while the second
recipient (index 1) is processed. -/
theorem crash_save_on_fault_witness :
    (endCallback (fun _ _ => TransportResult.success) (fun i => decide (1 ≤ i))
      [parsedRow "a" "l1", parsedRow "b" "l2", parsedRow "c" "l3"]).path =
      outputFile ++ ".partial" ∧
    (endCallback (fun _ _ => TransportResult.success) (fun i => decide (1 ≤ i))
      [parsedRow "a" "l1", parsedRow "b" "l2", parsedRow "c" "l3"]).path ≠
      outputFile ∧
    (endCallback (fun _ _ => TransportResult.success) (fun i => decide (1 ≤ i))
      [parsedRow "a" "l1", parsedRow "b" "l2", parsedRow "c" "l3"]).rows.length =
      [parsedRow "a" "l1", parsedRow "b" "l2", parsedRow "c" "l3"].length ∧
    (endCallback (fun _ _ => TransportResult.success) (fun i => decide (1 ≤ i))
      [parsedRow "a" "l1", parsedRow "b" "l2", parsedRow "c" "l3"]).rows =
      ([parsedRow "a" "l1", parsedRow "b" "l2", parsedRow "c" "l3"].take 1).map
        (processRow (fun _ _ => TransportResult.success)) ++
      [parsedRow "a" "l1", parsedRow "b" "l2", parsedRow "c" "l3"].drop 1 ∧
    (∀ r ∈ ([parsedRow "a" "l1", parsedRow "b" "l2", parsedRow "c" "l3"].take 1).map
        (processRow (fun _ _ => TransportResult.success)),
      ∃ s, r.status = some s ∧ isTerminal s) ∧
    (endCallback (fun _ _ => TransportResult.success) (fun i => decide (1 ≤ i))
      [parsedRow "a" "l1", parsedRow "b" "l2", parsedRow "c" "l3"]).faultReported = true ∧
    (endCallback (fun _ _ => TransportResult.success) (fun i => decide (1 ≤ i))
      [parsedRow "a" "l1", parsedRow "b" "l2", parsedRow "c" "l3"]).reRaised = false :=
  crash_save_on_fault (fun _ _ => TransportResult.success)
    (fun i => decide (1 ≤ i))
    [parsedRow "a" "l1", parsedRow "b" "l2", parsedRow "c" "l3"] 1
    (by decide)
    (fun j hj => by
      have hj0 : j = 0 := by omega
      subst hj0
      decide)
    (by decide)

/-- C8: no `'Pending'` status value exists anywhere: parsed rows carry no
Status field at all (`none`), and in any run — including the partial-save
path — every output row either still has no Status field or carries a
terminal status; no row ever has status `'Pending'`. -/
theorem no_pending_status (transport : String → Nat → TransportResult)
    (fault : Nat → Bool) (rows : List Row)
    (hparsed : ∀ r ∈ rows, r.status = none) :
    (∀ e l, (parsedRow e l).status = none) ∧
    ∀ r ∈ (endCallback transport fault rows).rows,
      (r.status = none ∨ ∃ s, r.status = some s ∧ isTerminal s) ∧
      r.status ≠ some "Pending" := by
  refine ⟨fun e l => rfl, ?_⟩
  have hrows : (endCallback transport fault rows).rows =
      (dispatchGo transport fault 0 rows).1 := by
    by_cases h : (dispatchGo transport fault 0 rows).2.2 <;>
      simp [endCallback, h]
  intro r hr
  rw [hrows] at hr
  have hst := dispatchGo_rows_status transport fault rows 0 hparsed r hr
  refine ⟨hst, ?_⟩
  rcases hst with hst | ⟨s, hs, hterm⟩
  · simp [hst]
  · rw [hs]
    intro hcon
    have hsp : s = "Pending" := by
      injection hcon
    exact isTerminal_ne_pending s hterm hsp

/-- Witness for C8: two parsed rows, fault firing while the first recipient
is processed, under an always-succeeding transport. -/
theorem no_pending_status_witness :
    (∀ e l, (parsedRow e l).status = none) ∧
    ∀ r ∈ (endCallback (fun _ _ => TransportResult.success) (fun _ => true)
        [parsedRow "a" "l1", parsedRow "b" "l2"]).rows,
      (r.status = none ∨ ∃ s, r.status = some s ∧ isTerminal s) ∧
      r.status ≠ some "Pending" :=
  no_pending_status (fun _ _ => TransportResult.success) (fun _ => true)
    [parsedRow "a" "l1", parsedRow "b" "l2"]
    (by intro r hr; simp only [List.mem_cons] at hr
        rcases hr with h | h | h
        · subst h; rfl
        · subst h; rfl
        · simp at h)

end LinkEmailer
